import Mathlib

/-!
# RC-VIO numerics: quaternion and rotation kernel

Shallow embedding of `include/rcvio/numerics.h` (JPL quaternions, scalar last).

* A `Eigen::Vector4d` is a function `Fin 4 → α`, a `Eigen::Vector3d` a function
  `Fin 3 → α`, a 3×3 / 4×4 matrix a Mathlib `Matrix` over `Fin 3` / `Fin 4`.
* The scalar type `α` is any linearly ordered field and the square root is an
  argument, so every definition is executable (for instance over `ℚ`); the
  theorems instantiate `α := ℝ` and `sqrt := Real.sqrt`.
* `Eigen`'s `normalize()` is library code: it divides the vector by its norm
  when the squared norm is positive and leaves it untouched otherwise.
* The table `CHI_THRESHOLD` is a list of rationals; a C array access
  `table[k]` is in bounds exactly when the list has an entry at index `k`.
* In `rotToQuat` the square root of a negative number and the division by a
  zero pivot have no real value (the double-precision program produces NaN
  there); the embedding returns `none` in exactly these cases.
-/

namespace rcvio

variable {α : Type} [LinearOrderedField α]

/-- Four-component column vector, `Eigen::Vector4d`; a quaternion is `(x, y, z, w)`. -/
abbrev Vector4 (α : Type) : Type := Fin 4 → α

/-- Three-component column vector, `Eigen::Vector3d`. -/
abbrev Vector3 (α : Type) : Type := Fin 3 → α

/-- Square 3×3 matrix, `Eigen::Matrix3d`. -/
abbrev Matrix3 (α : Type) : Type := Matrix (Fin 3) (Fin 3) α

/-- Square 4×4 matrix, `Eigen::Matrix4d`. -/
abbrev Matrix4 (α : Type) : Type := Matrix (Fin 4) (Fin 4) α

/-- Sum of the squares of the components, `Eigen`'s `squaredNorm()`. -/
def squaredNorm {n : ℕ} (v : Fin n → α) : α := ∑ i, v i * v i

/-- Euclidean norm, `Eigen`'s `norm()`: the square root of `squaredNorm`. -/
def norm {n : ℕ} (sqrt : α → α) (v : Fin n → α) : α := sqrt (squaredNorm v)

/-- In-place normalisation, `Eigen`'s `normalize()`: with `z = squaredNorm()`,
the vector is divided by `sqrt z` when `z > 0` and is left as it is otherwise. -/
def normalize {n : ℕ} (sqrt : α → α) (v : Fin n → α) : Fin n → α :=
  let z := squaredNorm v
  if 0 < z then fun i => v i / sqrt z else v

/-- Sign canonicalisation shared by `quatMul` and `rotToQuat`:
`if (q(3) < 0) q = -q;`. -/
def canonicalize (q : Vector4 α) : Vector4 α :=
  if q 3 < 0 then -q else q

/-- The local `mat` of `quatMul`: the 4×4 left-multiplication matrix of `q1`. -/
def quatMulMat (q1 : Vector4 α) : Matrix4 α :=
  !![ q1 3,  q1 2, -q1 1, q1 0;
     -q1 2,  q1 3,  q1 0, q1 1;
      q1 1, -q1 0,  q1 3, q1 2;
     -q1 0, -q1 1, -q1 2, q1 3]

/-- Quaternion multiplication `quatMul(q1, q2)`: `q = mat * q2`, then
`q.normalize()`, then the sign canonicalisation. -/
def quatMul (sqrt : α → α) (q1 q2 : Vector4 α) : Vector4 α :=
  let q : Vector4 α := Matrix.mulVec (quatMulMat q1) q2
  canonicalize (normalize sqrt q)

/-- Quaternion inverse `quatInv(q)`: two branches on `q(3) > 0`, then
`q_inv.normalize()`. -/
def quatInv (sqrt : α → α) (q : Vector4 α) : Vector4 α :=
  let q_inv : Vector4 α :=
    if q 3 > 0 then ![-q 0, -q 1, -q 2, q 3]
    else ![q 0, q 1, q 2, -q 3]
  normalize sqrt q_inv

/-- Skew-symmetric matrix `skew(w)`. -/
def skew (w : Vector3 α) : Matrix3 α :=
  !![0, -w 2, w 1;
     w 2, 0, -w 0;
     -w 1, w 0, 0]

/-- Quaternion to rotation matrix `quatToRot(q)`:
`qx = skew(q.block<3,1>(0,0))`, `mat = I - 2 * q(3) * qx + 2 * qx * qx`. -/
def quatToRot (q : Vector4 α) : Matrix3 α :=
  let qx : Matrix3 α := skew ![q 0, q 1, q 2]
  let I : Matrix3 α := 1
  I - (2 * q 3) • qx + ((2 : α) • qx) * qx

/-- The four branches of `rotToQuat`, named after the component that is
computed by the square root. -/
inductive Pivot where
  | x : Pivot
  | y : Pivot
  | z : Pivot
  | w : Pivot
  deriving DecidableEq, Repr

/-- Branch selection of `rotToQuat`: the three strict tests of the `if` /
`else if` chain in source order, the last `else` being the `w` branch. -/
def rotToQuatBranch (R : Matrix3 α) : Pivot :=
  let T := Matrix.trace R
  if R 0 0 > T ∧ R 0 0 > R 1 1 ∧ R 0 0 > R 2 2 then Pivot.x
  else if R 1 1 > T ∧ R 1 1 > R 0 0 ∧ R 1 1 > R 2 2 then Pivot.y
  else if R 2 2 > T ∧ R 2 2 > R 0 0 ∧ R 2 2 > R 1 1 then Pivot.z
  else Pivot.w

/-- Argument of the `sqrt` call in the branch that `rotToQuat` selects. -/
def rotToQuatRadicand (R : Matrix3 α) : α :=
  let T := Matrix.trace R
  match rotToQuatBranch R with
  | Pivot.x => (1 + (2 * R 0 0) - T) / 4
  | Pivot.y => (1 + (2 * R 1 1) - T) / 4
  | Pivot.z => (1 + (2 * R 2 2) - T) / 4
  | Pivot.w => (1 + T) / 4

/-- Pivot component of `rotToQuat`: the value `q(0)`, `q(1)`, `q(2)` or `q(3)`
that the selected branch computes by `sqrt` and then divides by. -/
def rotToQuatPivot (sqrt : α → α) (R : Matrix3 α) : α :=
  sqrt (rotToQuatRadicand R)

/-- The vector `q` of `rotToQuat` right before `q.normalize()`, with the
division of the program read as field division. -/
def rotToQuatRaw (sqrt : α → α) (R : Matrix3 α) : Vector4 α :=
  let T := Matrix.trace R
  if R 0 0 > T ∧ R 0 0 > R 1 1 ∧ R 0 0 > R 2 2 then
    let q0 := sqrt ((1 + (2 * R 0 0) - T) / 4)
    ![q0,
      (1 / (4 * q0)) * (R 0 1 + R 1 0),
      (1 / (4 * q0)) * (R 0 2 + R 2 0),
      (1 / (4 * q0)) * (R 1 2 - R 2 1)]
  else if R 1 1 > T ∧ R 1 1 > R 0 0 ∧ R 1 1 > R 2 2 then
    let q1 := sqrt ((1 + (2 * R 1 1) - T) / 4)
    ![(1 / (4 * q1)) * (R 0 1 + R 1 0),
      q1,
      (1 / (4 * q1)) * (R 1 2 + R 2 1),
      (1 / (4 * q1)) * (R 2 0 - R 0 2)]
  else if R 2 2 > T ∧ R 2 2 > R 0 0 ∧ R 2 2 > R 1 1 then
    let q2 := sqrt ((1 + (2 * R 2 2) - T) / 4)
    ![(1 / (4 * q2)) * (R 0 2 + R 2 0),
      (1 / (4 * q2)) * (R 1 2 + R 2 1),
      q2,
      (1 / (4 * q2)) * (R 0 1 - R 1 0)]
  else
    let q3 := sqrt ((1 + T) / 4)
    ![(1 / (4 * q3)) * (R 1 2 - R 2 1),
      (1 / (4 * q3)) * (R 2 0 - R 0 2),
      (1 / (4 * q3)) * (R 0 1 - R 1 0),
      q3]

/-- Rotation matrix to quaternion `rotToQuat(R)`. The result is `none` when the
selected branch takes the square root of a negative number or divides by a
zero pivot; otherwise it is the branch vector, normalised and sign
canonicalised. -/
def rotToQuat (sqrt : α → α) (R : Matrix3 α) : Option (Vector4 α) :=
  if rotToQuatRadicand R < 0 ∨ rotToQuatPivot sqrt R = 0 then none
  else some (canonicalize (normalize sqrt (rotToQuatRaw sqrt R)))

/-- Component of the quaternion `q` that belongs to a branch of `rotToQuat`:
`q(0)` for the `x` branch, `q(1)` for `y`, `q(2)` for `z`, `q(3)` for `w`. -/
def pivotComponent (b : Pivot) (q : Vector4 α) : α :=
  match b with
  | Pivot.x => q 0
  | Pivot.y => q 1
  | Pivot.z => q 2
  | Pivot.w => q 3

/-- A valid rotation matrix: `R * Rᵀ = I` and `det R = 1`. -/
def IsRotation (R : Matrix3 α) : Prop :=
  R * Matrix.transpose R = 1 ∧ Matrix.det R = 1

/-- Chi-square thresholds based on the DOF of state (chi2(0.95, DOF)):
`constexpr double CHI_THRESHOLD[500]`. The initialiser lists 500 values, one
for each slot of the array, each with six decimals; they are kept in source
order and read as exact decimal rationals. -/
def CHI_THRESHOLD : List ℚ :=
  [
   3.841459, 5.991465, 7.814728, 9.487729, 11.070498, 12.591587, 14.067140, 15.507313, 16.918978, 18.307038,
   19.675138, 21.026070, 22.362032, 23.684791, 24.995790, 26.296228, 27.587112, 28.869299, 30.143527, 31.410433,
   32.670573, 33.924438, 35.172462, 36.415029, 37.652484, 38.885139, 40.113272, 41.337138, 42.556968, 43.772972,
   44.985343, 46.194260, 47.399884, 48.602367, 49.801850, 50.998460, 52.192320, 53.383541, 54.572228, 55.758479,
   56.942387, 58.124038, 59.303512, 60.480887, 61.656233, 62.829620, 64.001112, 65.170769, 66.338649, 67.504807,
   68.669294, 69.832160, 70.993453, 72.153216, 73.311493, 74.468324, 75.623748, 76.777803, 77.930524, 79.081944,
   80.232098, 81.381015, 82.528727, 83.675261, 84.820645, 85.964907, 87.108072, 88.250164, 89.391208, 90.531225,
   91.670239, 92.808270, 93.945340, 95.081467, 96.216671, 97.350970, 98.484383, 99.616927, 100.748619, 101.879474,
   103.009509, 104.138738, 105.267177, 106.394840, 107.521741, 108.647893, 109.773309, 110.898003, 112.021986, 113.145270,
   114.267868, 115.389790, 116.511047, 117.631651, 118.751612, 119.870939, 120.989644, 122.107735, 123.225221, 124.342113,
   125.458419, 126.574148, 127.689308, 128.803908, 129.917955, 131.031458, 132.144425, 133.256862, 134.368777, 135.480178,
   136.591071, 137.701464, 138.811363, 139.920774, 141.029704, 142.138160, 143.246147, 144.353672, 145.460740, 146.567358,
   147.673530, 148.779262, 149.884561, 150.989430, 152.093876, 153.197903, 154.301516, 155.404721, 156.507522, 157.609923,
   158.711930, 159.813547, 160.914778, 162.015628, 163.116101, 164.216201, 165.315932, 166.415299, 167.514305, 168.612954,
   169.711251, 170.809198, 171.906799, 173.004059, 174.100981, 175.197567, 176.293823, 177.389750, 178.485353, 179.580634,
   180.675597, 181.770246, 182.864582, 183.958610, 185.052332, 186.145751, 187.238870, 188.331692, 189.424220, 190.516457,
   191.608404, 192.700066, 193.791445, 194.882542, 195.973362, 197.063906, 198.154177, 199.244177, 200.333909, 201.423375,
   202.512577, 203.601519, 204.690201, 205.778627, 206.866798, 207.954717, 209.042386, 210.129807, 211.216982, 212.303913,
   213.390602, 214.477052, 215.563263, 216.649239, 217.734981, 218.820491, 219.905770, 220.990822, 222.075646, 223.160247,
   224.244624, 225.328780, 226.412716, 227.496435, 228.579938, 229.663226, 230.746302, 231.829167, 232.911822, 233.994269,
   235.076510, 236.158546, 237.240378, 238.322009, 239.403439, 240.484671, 241.565705, 242.646544, 243.727187, 244.807638,
   245.887897, 246.967965, 248.047844, 249.127536, 250.207041, 251.286361, 252.365498, 253.444451, 254.523224, 255.601816,
   256.680230, 257.758465, 258.836525, 259.914409, 260.992120, 262.069657, 263.147023, 264.224218, 265.301243, 266.378101,
   267.454791, 268.531314, 269.607673, 270.683868, 271.759900, 272.835769, 273.911478, 274.987027, 276.062417, 277.137650,
   278.212725, 279.287644, 280.362409, 281.437019, 282.511477, 283.585782, 284.659936, 285.733940, 286.807794, 287.881501,
   288.955059, 290.028471, 291.101737, 292.174858, 293.247835, 294.320669, 295.393360, 296.465910, 297.538319, 298.610588,
   299.682719, 300.754710, 301.826565, 302.898282, 303.969864, 305.041310, 306.112622, 307.183800, 308.254846, 309.325759,
   310.396541, 311.467192, 312.537713, 313.608105, 314.678368, 315.748503, 316.818512, 317.888393, 318.958149, 320.027780,
   321.097286, 322.166669, 323.235928, 324.305065, 325.374080, 326.442974, 327.511748, 328.580401, 329.648936, 330.717351,
   331.785649, 332.853829, 333.921892, 334.989839, 336.057670, 337.125386, 338.192988, 339.260476, 340.327850, 341.395112,
   342.462262, 343.529300, 344.596226, 345.663043, 346.729749, 347.796346, 348.862834, 349.929214, 350.995485, 352.061650,
   353.127708, 354.193659, 355.259504, 356.325245, 357.390880, 358.456412, 359.521839, 360.587163, 361.652385, 362.717504,
   363.782521, 364.847437, 365.912253, 366.976967, 368.041582, 369.106097, 370.170513, 371.234831, 372.299051, 373.363173,
   374.427197, 375.491125, 376.554957, 377.618692, 378.682332, 379.745878, 380.809328, 381.872684, 382.935947, 383.999116,
   385.062192, 386.125175, 387.188067, 388.250867, 389.313575, 390.376192, 391.438719, 392.501156, 393.563503, 394.625760,
   395.687929, 396.750009, 397.812000, 398.873904, 399.935720, 400.997450, 402.059092, 403.120648, 404.182118, 405.243502,
   406.304801, 407.366015, 408.427145, 409.488190, 410.549151, 411.610029, 412.670823, 413.731535, 414.792164, 415.852711,
   416.913176, 417.973559, 419.033862, 420.094083, 421.154224, 422.214284, 423.274265, 424.334166, 425.393988, 426.453731,
   427.513395, 428.572980, 429.632488, 430.691918, 431.751271, 432.810546, 433.869745, 434.928867, 435.987913, 437.046882,
   438.105777, 439.164596, 440.223339, 441.282008, 442.340603, 443.399123, 444.457570, 445.515942, 446.574242, 447.632468,
   448.690621, 449.748702, 450.806711, 451.864647, 452.922512, 453.980305, 455.038027, 456.095679, 457.153259, 458.210769,
   459.268209, 460.325579, 461.382879, 462.440110, 463.497272, 464.554365, 465.611389, 466.668344, 467.725232, 468.782052,
   469.838804, 470.895488, 471.952105, 473.008656, 474.065139, 475.121556, 476.177907, 477.234192, 478.290411, 479.346565,
   480.402653, 481.458676, 482.514634, 483.570528, 484.626357, 485.682122, 486.737823, 487.793460, 488.849033, 489.904544,
   490.959991, 492.015375, 493.070697, 494.125956, 495.181153, 496.236287, 497.291360, 498.346372, 499.401322, 500.456210,
   501.511038, 502.565805, 503.620511, 504.675157, 505.729742, 506.784268, 507.838733, 508.893140, 509.947486, 511.001774,
   512.056002, 513.110172, 514.164283, 515.218335, 516.272329, 517.326265, 518.380143, 519.433964, 520.487727, 521.541432,
   522.595081, 523.648672, 524.702207, 525.755685, 526.809107, 527.862472, 528.915781, 529.969035, 531.022232, 532.075374,
   533.128461, 534.181492, 535.234469, 536.287390, 537.340257, 538.393069, 539.445827, 540.498531, 541.551181, 542.603777,
   543.656319, 544.708807, 545.761243, 546.813625, 547.865954, 548.918230, 549.970453, 551.022624, 552.074743, 553.126809]

/-! ## Component forms -/

theorem squaredNorm_four (v : Vector4 ℝ) :
    squaredNorm v = v 0 * v 0 + v 1 * v 1 + v 2 * v 2 + v 3 * v 3 := by
  simp [squaredNorm, Fin.sum_univ_four]

theorem quatMulMat_mulVec (q1 q2 : Vector4 ℝ) :
    Matrix.mulVec (quatMulMat q1) q2 =
      ![q1 3 * q2 0 + q1 2 * q2 1 - q1 1 * q2 2 + q1 0 * q2 3,
        -(q1 2 * q2 0) + q1 3 * q2 1 + q1 0 * q2 2 + q1 1 * q2 3,
        q1 1 * q2 0 - q1 0 * q2 1 + q1 3 * q2 2 + q1 2 * q2 3,
        -(q1 0 * q2 0) - q1 1 * q2 1 - q1 2 * q2 2 + q1 3 * q2 3] := by
  funext i
  fin_cases i <;>
    simp [quatMulMat, Matrix.mulVec, Matrix.dotProduct, Fin.sum_univ_four] <;> ring

theorem squaredNorm_quatMulMat_mulVec (q1 q2 : Vector4 ℝ) :
    squaredNorm (Matrix.mulVec (quatMulMat q1) q2) = squaredNorm q1 * squaredNorm q2 := by
  rw [quatMulMat_mulVec]
  simp only [squaredNorm_four]
  simp
  ring

theorem squaredNorm_nonneg (v : Vector4 ℝ) : 0 ≤ squaredNorm v := by
  rw [squaredNorm_four]
  nlinarith [mul_self_nonneg (v 0), mul_self_nonneg (v 1), mul_self_nonneg (v 2),
    mul_self_nonneg (v 3)]

theorem squaredNorm_pos_of_ne_zero (v : Vector4 ℝ) (hv : v ≠ 0) : 0 < squaredNorm v := by
  rcases lt_or_eq_of_le (squaredNorm_nonneg v) with h | h
  · exact h
  · exfalso
    apply hv
    rw [squaredNorm_four] at h
    have h0 := mul_self_nonneg (v 0)
    have h1 := mul_self_nonneg (v 1)
    have h2 := mul_self_nonneg (v 2)
    have h3 := mul_self_nonneg (v 3)
    have e0 : v 0 = 0 := mul_self_eq_zero.mp (by linarith)
    have e1 : v 1 = 0 := mul_self_eq_zero.mp (by linarith)
    have e2 : v 2 = 0 := mul_self_eq_zero.mp (by linarith)
    have e3 : v 3 = 0 := mul_self_eq_zero.mp (by linarith)
    funext i
    fin_cases i
    · exact e0
    · exact e1
    · exact e2
    · exact e3

theorem squaredNorm_eq_one_of_norm (v : Vector4 ℝ) (h : norm Real.sqrt v = 1) :
    squaredNorm v = 1 := by
  unfold norm at h
  exact (Real.sqrt_eq_one).mp h

theorem squaredNorm_neg (v : Vector4 ℝ) : squaredNorm (-v) = squaredNorm v := by
  simp [squaredNorm_four]

theorem normalize_of_squaredNorm_one (v : Vector4 ℝ) (h : squaredNorm v = 1) :
    normalize Real.sqrt v = v := by
  unfold normalize
  simp [h]

theorem squaredNorm_normalize (v : Vector4 ℝ) (hv : 0 < squaredNorm v) :
    squaredNorm (normalize Real.sqrt v) = 1 := by
  have hs : Real.sqrt (squaredNorm v) * Real.sqrt (squaredNorm v) = squaredNorm v :=
    Real.mul_self_sqrt hv.le
  have hne : Real.sqrt (squaredNorm v) ≠ 0 := (Real.sqrt_pos.mpr hv).ne'
  have hz : squaredNorm v = v 0 * v 0 + v 1 * v 1 + v 2 * v 2 + v 3 * v 3 :=
    squaredNorm_four v
  unfold normalize
  simp only [hv, if_true]
  rw [squaredNorm_four]
  field_simp
  nlinarith [hs, hz]

theorem canonicalize_scalar_nonneg (q : Vector4 ℝ) : 0 ≤ canonicalize q 3 := by
  unfold canonicalize
  split_ifs with h
  · simp only [Pi.neg_apply]; linarith
  · exact not_lt.mp h

theorem squaredNorm_canonicalize (q : Vector4 ℝ) :
    squaredNorm (canonicalize q) = squaredNorm q := by
  unfold canonicalize
  split_ifs
  · exact squaredNorm_neg q
  · rfl

theorem canonicalize_eq_or (v : Vector4 ℝ) : canonicalize v = v ∨ canonicalize v = -v := by
  unfold canonicalize
  split_ifs
  · exact Or.inr rfl
  · exact Or.inl rfl

theorem canonicalize_of_scalar_zero (v : Vector4 ℝ) (h : v 3 = 0) : canonicalize v = v := by
  unfold canonicalize
  simp [h]

theorem canonicalize_neg_of_scalar_ne_zero (v : Vector4 ℝ) (h : v 3 ≠ 0) :
    canonicalize (-v) = canonicalize v := by
  unfold canonicalize
  rcases lt_or_gt_of_ne h with h1 | h1
  · have h2 : ¬ (-v) 3 < 0 := by simp only [Pi.neg_apply]; linarith
    rw [if_neg h2, if_pos h1]
  · have h2 : (-v) 3 < 0 := by simp only [Pi.neg_apply]; linarith
    have h3 : ¬ v 3 < 0 := by linarith
    rw [if_pos h2, if_neg h3, neg_neg]

theorem quatMul_eq_canonicalize (a b : Vector4 ℝ) (ha : squaredNorm a = 1)
    (hb : squaredNorm b = 1) :
    quatMul Real.sqrt a b = canonicalize (Matrix.mulVec (quatMulMat a) b) := by
  unfold quatMul
  simp only []
  rw [normalize_of_squaredNorm_one]
  rw [squaredNorm_quatMulMat_mulVec, ha, hb, mul_one]

theorem squaredNorm_quatMul (a b : Vector4 ℝ) (ha : squaredNorm a = 1)
    (hb : squaredNorm b = 1) : squaredNorm (quatMul Real.sqrt a b) = 1 := by
  rw [quatMul_eq_canonicalize a b ha hb, squaredNorm_canonicalize,
    squaredNorm_quatMulMat_mulVec, ha, hb, mul_one]

theorem quatMulMat_mulVec_assoc (a b c : Vector4 ℝ) :
    Matrix.mulVec (quatMulMat (Matrix.mulVec (quatMulMat a) b)) c =
      Matrix.mulVec (quatMulMat a) (Matrix.mulVec (quatMulMat b) c) := by
  simp only [quatMulMat_mulVec]
  funext i
  fin_cases i <;> simp <;> ring

theorem quatMulMat_neg_mulVec (a c : Vector4 ℝ) :
    Matrix.mulVec (quatMulMat (-a)) c = -Matrix.mulVec (quatMulMat a) c := by
  simp only [quatMulMat_mulVec]
  funext i
  fin_cases i <;> simp <;> ring

theorem quatToRot_eq (q : Vector4 ℝ) :
    quatToRot q =
      !![1 - 2 * (q 1 * q 1 + q 2 * q 2), 2 * (q 0 * q 1 + q 2 * q 3), 2 * (q 0 * q 2 - q 1 * q 3);
         2 * (q 0 * q 1 - q 2 * q 3), 1 - 2 * (q 0 * q 0 + q 2 * q 2), 2 * (q 1 * q 2 + q 0 * q 3);
         2 * (q 0 * q 2 + q 1 * q 3), 2 * (q 1 * q 2 - q 0 * q 3), 1 - 2 * (q 0 * q 0 + q 1 * q 1)] := by
  ext i j
  fin_cases i <;> fin_cases j <;>
    simp [quatToRot, skew, Matrix.mul_apply, Fin.sum_univ_three] <;> ring

theorem quatToRot_entries (q : Vector4 ℝ) :
    quatToRot q 0 0 = 1 - 2 * (q 1 * q 1 + q 2 * q 2) ∧
    quatToRot q 0 1 = 2 * (q 0 * q 1 + q 2 * q 3) ∧
    quatToRot q 0 2 = 2 * (q 0 * q 2 - q 1 * q 3) ∧
    quatToRot q 1 0 = 2 * (q 0 * q 1 - q 2 * q 3) ∧
    quatToRot q 1 1 = 1 - 2 * (q 0 * q 0 + q 2 * q 2) ∧
    quatToRot q 1 2 = 2 * (q 1 * q 2 + q 0 * q 3) ∧
    quatToRot q 2 0 = 2 * (q 0 * q 2 + q 1 * q 3) ∧
    quatToRot q 2 1 = 2 * (q 1 * q 2 - q 0 * q 3) ∧
    quatToRot q 2 2 = 1 - 2 * (q 0 * q 0 + q 1 * q 1) := by
  rw [quatToRot_eq]
  simp

theorem trace_quatToRot (q : Vector4 ℝ) :
    Matrix.trace (quatToRot q) = 3 - 4 * (q 0 * q 0 + q 1 * q 1 + q 2 * q 2) := by
  obtain ⟨e00, -, -, -, e11, -, -, -, e22⟩ := quatToRot_entries q
  rw [Matrix.trace_fin_three, e00, e11, e22]
  ring

/-! ## Branch structure of `rotToQuat` -/

theorem rotToQuatRaw_eq_match (R : Matrix3 ℝ) :
    rotToQuatRaw Real.sqrt R =
      match rotToQuatBranch R with
      | Pivot.x =>
        ![rotToQuatPivot Real.sqrt R,
          (1 / (4 * rotToQuatPivot Real.sqrt R)) * (R 0 1 + R 1 0),
          (1 / (4 * rotToQuatPivot Real.sqrt R)) * (R 0 2 + R 2 0),
          (1 / (4 * rotToQuatPivot Real.sqrt R)) * (R 1 2 - R 2 1)]
      | Pivot.y =>
        ![(1 / (4 * rotToQuatPivot Real.sqrt R)) * (R 0 1 + R 1 0),
          rotToQuatPivot Real.sqrt R,
          (1 / (4 * rotToQuatPivot Real.sqrt R)) * (R 1 2 + R 2 1),
          (1 / (4 * rotToQuatPivot Real.sqrt R)) * (R 2 0 - R 0 2)]
      | Pivot.z =>
        ![(1 / (4 * rotToQuatPivot Real.sqrt R)) * (R 0 2 + R 2 0),
          (1 / (4 * rotToQuatPivot Real.sqrt R)) * (R 1 2 + R 2 1),
          rotToQuatPivot Real.sqrt R,
          (1 / (4 * rotToQuatPivot Real.sqrt R)) * (R 0 1 - R 1 0)]
      | Pivot.w =>
        ![(1 / (4 * rotToQuatPivot Real.sqrt R)) * (R 1 2 - R 2 1),
          (1 / (4 * rotToQuatPivot Real.sqrt R)) * (R 2 0 - R 0 2),
          (1 / (4 * rotToQuatPivot Real.sqrt R)) * (R 0 1 - R 1 0),
          rotToQuatPivot Real.sqrt R] := by
  unfold rotToQuatRaw rotToQuatPivot rotToQuatRadicand rotToQuatBranch
  simp only []
  split_ifs <;> rfl

theorem rotToQuatBranch_quatToRot (q : Vector4 ℝ) (h : squaredNorm q = 1) :
    rotToQuatBranch (quatToRot q) =
      if q 0 * q 0 > q 3 * q 3 ∧ q 0 * q 0 > q 1 * q 1 ∧ q 0 * q 0 > q 2 * q 2 then Pivot.x
      else if q 1 * q 1 > q 3 * q 3 ∧ q 1 * q 1 > q 0 * q 0 ∧ q 1 * q 1 > q 2 * q 2 then Pivot.y
      else if q 2 * q 2 > q 3 * q 3 ∧ q 2 * q 2 > q 0 * q 0 ∧ q 2 * q 2 > q 1 * q 1 then Pivot.z
      else Pivot.w := by
  rw [squaredNorm_four] at h
  obtain ⟨e00, -, -, -, e11, -, -, -, e22⟩ := quatToRot_entries q
  have eT := trace_quatToRot q
  have c1 : (quatToRot q 0 0 > Matrix.trace (quatToRot q) ∧ quatToRot q 0 0 > quatToRot q 1 1 ∧
      quatToRot q 0 0 > quatToRot q 2 2) ↔
      (q 0 * q 0 > q 3 * q 3 ∧ q 0 * q 0 > q 1 * q 1 ∧ q 0 * q 0 > q 2 * q 2) := by
    rw [e00, e11, e22, eT]
    constructor <;> rintro ⟨a, b, c⟩ <;> refine ⟨?_, ?_, ?_⟩ <;> linarith
  have c2 : (quatToRot q 1 1 > Matrix.trace (quatToRot q) ∧ quatToRot q 1 1 > quatToRot q 0 0 ∧
      quatToRot q 1 1 > quatToRot q 2 2) ↔
      (q 1 * q 1 > q 3 * q 3 ∧ q 1 * q 1 > q 0 * q 0 ∧ q 1 * q 1 > q 2 * q 2) := by
    rw [e00, e11, e22, eT]
    constructor <;> rintro ⟨a, b, c⟩ <;> refine ⟨?_, ?_, ?_⟩ <;> linarith
  have c3 : (quatToRot q 2 2 > Matrix.trace (quatToRot q) ∧ quatToRot q 2 2 > quatToRot q 0 0 ∧
      quatToRot q 2 2 > quatToRot q 1 1) ↔
      (q 2 * q 2 > q 3 * q 3 ∧ q 2 * q 2 > q 0 * q 0 ∧ q 2 * q 2 > q 1 * q 1) := by
    rw [e00, e11, e22, eT]
    constructor <;> rintro ⟨a, b, c⟩ <;> refine ⟨?_, ?_, ?_⟩ <;> linarith
  unfold rotToQuatBranch
  simp only [c1, c2, c3]

theorem rotToQuatRadicand_quatToRot (q : Vector4 ℝ) (h : squaredNorm q = 1) :
    rotToQuatRadicand (quatToRot q) =
      pivotComponent (rotToQuatBranch (quatToRot q)) q *
        pivotComponent (rotToQuatBranch (quatToRot q)) q := by
  rw [squaredNorm_four] at h
  obtain ⟨e00, -, -, -, e11, -, -, -, e22⟩ := quatToRot_entries q
  have eT := trace_quatToRot q
  unfold rotToQuatRadicand
  simp only []
  cases rotToQuatBranch (quatToRot q) <;> simp only [pivotComponent, e00, e11, e22, eT]
  · ring
  · ring
  · ring
  · linear_combination (-1 : ℝ) * h

theorem rotToQuatPivot_quatToRot (q : Vector4 ℝ) (h : squaredNorm q = 1) :
    rotToQuatPivot Real.sqrt (quatToRot q) =
      |pivotComponent (rotToQuatBranch (quatToRot q)) q| := by
  unfold rotToQuatPivot
  rw [rotToQuatRadicand_quatToRot q h, Real.sqrt_mul_self_eq_abs]

theorem rotToQuatRaw_quatToRot_pos (q : Vector4 ℝ) (h : squaredNorm q = 1)
    (hc : 0 < pivotComponent (rotToQuatBranch (quatToRot q)) q) :
    rotToQuatRaw Real.sqrt (quatToRot q) = q := by
  obtain ⟨-, e01, e02, e10, -, e12, e20, e21, -⟩ := quatToRot_entries q
  rw [rotToQuatRaw_eq_match, rotToQuatPivot_quatToRot q h, abs_of_pos hc, e01, e02, e10, e12,
    e20, e21]
  generalize rotToQuatBranch (quatToRot q) = b at hc ⊢
  cases b <;> simp only [pivotComponent] at hc ⊢ <;> funext i <;> fin_cases i <;> simp <;>
    field_simp <;> ring

theorem rotToQuatRaw_quatToRot_neg (q : Vector4 ℝ) (h : squaredNorm q = 1)
    (hc : pivotComponent (rotToQuatBranch (quatToRot q)) q < 0) :
    rotToQuatRaw Real.sqrt (quatToRot q) = -q := by
  obtain ⟨-, e01, e02, e10, -, e12, e20, e21, -⟩ := quatToRot_entries q
  rw [rotToQuatRaw_eq_match, rotToQuatPivot_quatToRot q h, abs_of_neg hc, e01, e02, e10, e12,
    e20, e21]
  generalize rotToQuatBranch (quatToRot q) = b at hc ⊢
  have hne := hc.ne
  cases b <;> simp only [pivotComponent] at hc hne ⊢ <;> funext i <;> fin_cases i <;> simp <;>
    field_simp <;> ring

/-- Value of `rotToQuat` on the rotation matrix of a unit quaternion `q`, in
terms of the component `c` of `q` that belongs to the selected branch: no
result when `c = 0`, otherwise the canonicalised `q` or `-q` by the sign of `c`. -/
theorem rotToQuat_quatToRot_eq (q : Vector4 ℝ) (h : squaredNorm q = 1) :
    rotToQuat Real.sqrt (quatToRot q) =
      if pivotComponent (rotToQuatBranch (quatToRot q)) q = 0 then none
      else some (canonicalize
        (if 0 < pivotComponent (rotToQuatBranch (quatToRot q)) q then q else -q)) := by
  have hrad := rotToQuatRadicand_quatToRot q h
  have hpiv := rotToQuatPivot_quatToRot q h
  have hnn : ¬ rotToQuatRadicand (quatToRot q) < 0 := by
    rw [hrad]
    exact not_lt.mpr (mul_self_nonneg _)
  unfold rotToQuat
  by_cases hc : pivotComponent (rotToQuatBranch (quatToRot q)) q = 0
  · have hp0 : rotToQuatPivot Real.sqrt (quatToRot q) = 0 := by rw [hpiv, hc, abs_zero]
    rw [if_pos (Or.inr hp0), if_pos hc]
  · have hp0 : ¬ rotToQuatPivot Real.sqrt (quatToRot q) = 0 := by
      rw [hpiv]
      exact abs_ne_zero.mpr hc
    rw [if_neg (not_or.mpr ⟨hnn, hp0⟩), if_neg hc]
    rcases lt_or_gt_of_ne hc with hneg | hpos
    · rw [rotToQuatRaw_quatToRot_neg q h hneg, if_neg (not_lt.mpr hneg.le),
        normalize_of_squaredNorm_one _ (by rw [squaredNorm_neg, h])]
    · rw [rotToQuatRaw_quatToRot_pos q h hpos, if_pos hpos, normalize_of_squaredNorm_one _ h]

theorem mul_self_lt_of_abs_lt {a b : ℝ} (h : |a| < b) : a * a < b * b := by
  have h1 := mul_self_lt_mul_self (abs_nonneg a) h
  rwa [abs_mul_abs_self] at h1

theorem mul_self_scalar_le_pivotComponent (q : Vector4 ℝ) (h : squaredNorm q = 1) :
    q 3 * q 3 ≤ pivotComponent (rotToQuatBranch (quatToRot q)) q *
      pivotComponent (rotToQuatBranch (quatToRot q)) q := by
  rw [rotToQuatBranch_quatToRot q h]
  split_ifs with h1 h2 h3
  · exact h1.1.le
  · exact h2.1.le
  · exact h3.1.le
  · exact le_refl _

theorem canonicalize_of_scalar_nonneg (q : Vector4 ℝ) (h : 0 ≤ q 3) : canonicalize q = q := by
  unfold canonicalize
  rw [if_neg (not_lt.mpr h)]

theorem canonicalize_neg_of_scalar_pos (q : Vector4 ℝ) (h : 0 < q 3) :
    canonicalize (-q) = q := by
  unfold canonicalize
  have h2 : (-q) 3 < 0 := by simp only [Pi.neg_apply]; linarith
  rw [if_pos h2, neg_neg]

/-- Round trip through `quatToRot` and `rotToQuat` for a unit quaternion with
strictly positive scalar part; the selected pivot is non-zero. -/
theorem rotToQuat_quatToRot_of_scalar_pos (q : Vector4 ℝ) (h : squaredNorm q = 1)
    (hw : 0 < q 3) :
    pivotComponent (rotToQuatBranch (quatToRot q)) q ≠ 0 ∧
    rotToQuat Real.sqrt (quatToRot q) = some q := by
  have hge := mul_self_scalar_le_pivotComponent q h
  have hc : pivotComponent (rotToQuatBranch (quatToRot q)) q ≠ 0 := by
    intro h0
    rw [h0] at hge
    nlinarith [mul_pos hw hw]
  refine ⟨hc, ?_⟩
  rw [rotToQuat_quatToRot_eq q h, if_neg hc]
  rcases lt_or_gt_of_ne hc with hneg | hpos
  · rw [if_neg (not_lt.mpr hneg.le), canonicalize_neg_of_scalar_pos q hw]
  · rw [if_pos hpos, canonicalize_of_scalar_nonneg q hw.le]

/-- Round trip for a unit quaternion with zero scalar part, one of whose vector
components is positive and strictly larger than the absolute values of the
other two. -/
theorem rotToQuat_quatToRot_of_scalar_zero (q : Vector4 ℝ) (h : squaredNorm q = 1)
    (hw : q 3 = 0)
    (hd : (|q 1| < q 0 ∧ |q 2| < q 0) ∨ (|q 0| < q 1 ∧ |q 2| < q 1) ∨
      (|q 0| < q 2 ∧ |q 1| < q 2)) :
    rotToQuat Real.sqrt (quatToRot q) = some q := by
  have hpos : 0 < pivotComponent (rotToQuatBranch (quatToRot q)) q := by
    rw [rotToQuatBranch_quatToRot q h, hw]
    rcases hd with ⟨h1, h2⟩ | ⟨h1, h2⟩ | ⟨h1, h2⟩
    · have p0 : 0 < q 0 := lt_of_le_of_lt (abs_nonneg _) h1
      have a1 := mul_self_lt_of_abs_lt h1
      have a2 := mul_self_lt_of_abs_lt h2
      have c1 : q 0 * q 0 > 0 * 0 ∧ q 0 * q 0 > q 1 * q 1 ∧ q 0 * q 0 > q 2 * q 2 :=
        ⟨by nlinarith, a1, a2⟩
      rw [if_pos c1]
      exact p0
    · have p1 : 0 < q 1 := lt_of_le_of_lt (abs_nonneg _) h1
      have a1 := mul_self_lt_of_abs_lt h1
      have a2 := mul_self_lt_of_abs_lt h2
      have c1 : ¬ (q 0 * q 0 > 0 * 0 ∧ q 0 * q 0 > q 1 * q 1 ∧ q 0 * q 0 > q 2 * q 2) := by
        rintro ⟨-, b, -⟩
        linarith
      have c2 : q 1 * q 1 > 0 * 0 ∧ q 1 * q 1 > q 0 * q 0 ∧ q 1 * q 1 > q 2 * q 2 :=
        ⟨by nlinarith, a1, a2⟩
      rw [if_neg c1, if_pos c2]
      exact p1
    · have p2 : 0 < q 2 := lt_of_le_of_lt (abs_nonneg _) h1
      have a1 := mul_self_lt_of_abs_lt h1
      have a2 := mul_self_lt_of_abs_lt h2
      have c1 : ¬ (q 0 * q 0 > 0 * 0 ∧ q 0 * q 0 > q 1 * q 1 ∧ q 0 * q 0 > q 2 * q 2) := by
        rintro ⟨-, -, c⟩
        linarith
      have c2 : ¬ (q 1 * q 1 > 0 * 0 ∧ q 1 * q 1 > q 0 * q 0 ∧ q 1 * q 1 > q 2 * q 2) := by
        rintro ⟨-, -, c⟩
        linarith
      have c3 : q 2 * q 2 > 0 * 0 ∧ q 2 * q 2 > q 0 * q 0 ∧ q 2 * q 2 > q 1 * q 1 :=
        ⟨by nlinarith, a1, a2⟩
      rw [if_neg c1, if_neg c2, if_pos c3]
      exact p2
  rw [rotToQuat_quatToRot_eq q h, if_neg hpos.ne', if_pos hpos,
    canonicalize_of_scalar_nonneg q hw.ge]

/-! ## Valid rotation matrices -/

theorem adjugate_eq_transpose_of_isRotation (R : Matrix3 ℝ) (hR : IsRotation R) :
    Matrix.adjugate R = Matrix.transpose R := by
  obtain ⟨h1, h2⟩ := hR
  calc Matrix.adjugate R = Matrix.adjugate R * (R * Matrix.transpose R) := by
        rw [h1, mul_one]
    _ = (Matrix.adjugate R * R) * Matrix.transpose R := by rw [Matrix.mul_assoc]
    _ = Matrix.transpose R := by rw [Matrix.adjugate_mul, h2, one_smul, one_mul]

theorem isRotation_row_norms (R : Matrix3 ℝ) (hR : IsRotation R) :
    R 0 0 * R 0 0 + R 0 1 * R 0 1 + R 0 2 * R 0 2 = 1 ∧
    R 1 0 * R 1 0 + R 1 1 * R 1 1 + R 1 2 * R 1 2 = 1 ∧
    R 2 0 * R 2 0 + R 2 1 * R 2 1 + R 2 2 * R 2 2 = 1 := by
  obtain ⟨h1, -⟩ := hR
  have a0 := congrFun (congrFun h1 0) 0
  have a1 := congrFun (congrFun h1 1) 1
  have a2 := congrFun (congrFun h1 2) 2
  simp only [Matrix.mul_apply, Matrix.transpose_apply, Fin.sum_univ_three] at a0 a1 a2
  simp at a0 a1 a2
  exact ⟨a0, a1, a2⟩

theorem isRotation_diag_cofactors (R : Matrix3 ℝ) (hR : IsRotation R) :
    R 1 1 * R 2 2 - R 1 2 * R 2 1 = R 0 0 ∧
    R 0 0 * R 2 2 - R 0 2 * R 2 0 = R 1 1 ∧
    R 0 0 * R 1 1 - R 0 1 * R 1 0 = R 2 2 := by
  have h := adjugate_eq_transpose_of_isRotation R hR
  rw [Matrix.adjugate_fin_three] at h
  have a0 := congrFun (congrFun h 0) 0
  have a1 := congrFun (congrFun h 1) 1
  have a2 := congrFun (congrFun h 2) 2
  simp only [Matrix.transpose_apply] at a0 a1 a2
  simp at a0 a1 a2
  exact ⟨a0, a1, a2⟩

theorem le_one_of_mul_self_sum_eq_one (a b c : ℝ) (h : a * a + b * b + c * c = 1) : a ≤ 1 := by
  by_contra hlt
  push_neg at hlt
  have h1 : 1 < a * a := by nlinarith
  linarith [mul_self_nonneg b, mul_self_nonneg c]

/-- The trace of a valid rotation matrix is at least `-1`. -/
theorem neg_one_le_trace_of_isRotation (R : Matrix3 ℝ) (hR : IsRotation R) :
    -1 ≤ Matrix.trace R := by
  obtain ⟨n0, n1, n2⟩ := isRotation_row_norms R hR
  obtain ⟨c0, c1, c2⟩ := isRotation_diag_cofactors R hR
  rw [Matrix.trace_fin_three]
  have key : (R 1 2 - R 2 1) * (R 1 2 - R 2 1) + (R 2 0 - R 0 2) * (R 2 0 - R 0 2) +
      (R 0 1 - R 1 0) * (R 0 1 - R 1 0) =
      (3 - (R 0 0 + R 1 1 + R 2 2)) * (1 + (R 0 0 + R 1 1 + R 2 2)) := by
    linear_combination n0 + n1 + n2 + 2 * c0 + 2 * c1 + 2 * c2
  have d0 : R 0 0 ≤ 1 := le_one_of_mul_self_sum_eq_one _ _ _ n0
  have d1 : R 1 1 ≤ 1 :=
    le_one_of_mul_self_sum_eq_one (R 1 1) (R 1 0) (R 1 2) (by linarith)
  have d2 : R 2 2 ≤ 1 :=
    le_one_of_mul_self_sum_eq_one (R 2 2) (R 2 0) (R 2 1) (by linarith)
  by_contra hlt
  push_neg at hlt
  have hs : 0 ≤ (R 1 2 - R 2 1) * (R 1 2 - R 2 1) + (R 2 0 - R 0 2) * (R 2 0 - R 0 2) +
      (R 0 1 - R 1 0) * (R 0 1 - R 1 0) :=
    add_nonneg (add_nonneg (mul_self_nonneg _) (mul_self_nonneg _)) (mul_self_nonneg _)
  rw [key] at hs
  have hp := mul_pos (by linarith : (0 : ℝ) < 3 - (R 0 0 + R 1 1 + R 2 2))
    (by linarith : (0 : ℝ) < -(1 + (R 0 0 + R 1 1 + R 2 2)))
  linarith

/-! ## Definedness of `rotToQuat` -/

/-- In the three strict branches the radicand exceeds `1/4`, for any matrix. -/
theorem one_fourth_lt_rotToQuatRadicand (R : Matrix3 ℝ) (hb : rotToQuatBranch R ≠ Pivot.w) :
    1 / 4 < rotToQuatRadicand R := by
  unfold rotToQuatRadicand
  unfold rotToQuatBranch at hb ⊢
  simp only [Matrix.trace_fin_three] at hb ⊢
  split_ifs at hb ⊢ with h1 h2 h3
  · obtain ⟨a, b, c⟩ := h1
    simp only []
    rcases le_or_lt 0 (R 0 0) with h0 | h0 <;> linarith
  · obtain ⟨a, b, c⟩ := h2
    simp only []
    rcases le_or_lt 0 (R 1 1) with h0 | h0 <;> linarith
  · obtain ⟨a, b, c⟩ := h3
    simp only []
    rcases le_or_lt 0 (R 2 2) with h0 | h0 <;> linarith
  · exact absurd rfl hb

theorem rotToQuatRadicand_nonneg_of_isRotation (R : Matrix3 ℝ) (hR : IsRotation R) :
    0 ≤ rotToQuatRadicand R := by
  by_cases hb : rotToQuatBranch R = Pivot.w
  · have ht := neg_one_le_trace_of_isRotation R hR
    unfold rotToQuatRadicand
    rw [hb]
    simp only []
    linarith
  · have := one_fourth_lt_rotToQuatRadicand R hb
    linarith

theorem mul_self_pivot_le_squaredNorm_raw (R : Matrix3 ℝ) :
    rotToQuatPivot Real.sqrt R * rotToQuatPivot Real.sqrt R ≤
      squaredNorm (rotToQuatRaw Real.sqrt R) := by
  rw [rotToQuatRaw_eq_match, squaredNorm_four]
  cases rotToQuatBranch R <;> simp only [] <;> simp <;>
    nlinarith [mul_self_nonneg (1 / (4 * rotToQuatPivot Real.sqrt R) * (R 0 1 + R 1 0)),
      mul_self_nonneg (1 / (4 * rotToQuatPivot Real.sqrt R) * (R 0 2 + R 2 0)),
      mul_self_nonneg (1 / (4 * rotToQuatPivot Real.sqrt R) * (R 1 2 - R 2 1)),
      mul_self_nonneg (1 / (4 * rotToQuatPivot Real.sqrt R) * (R 1 2 + R 2 1)),
      mul_self_nonneg (1 / (4 * rotToQuatPivot Real.sqrt R) * (R 2 0 - R 0 2)),
      mul_self_nonneg (1 / (4 * rotToQuatPivot Real.sqrt R) * (R 0 1 - R 1 0))]

/-- Every result of `rotToQuat`, on any matrix, has squared norm 1 and a
non-negative scalar part. -/
theorem rotToQuat_some_spec (R : Matrix3 ℝ) (q : Vector4 ℝ)
    (h : rotToQuat Real.sqrt R = some q) : squaredNorm q = 1 ∧ 0 ≤ q 3 := by
  unfold rotToQuat at h
  split_ifs at h with hc
  have hq := Option.some.inj h
  have hp : rotToQuatPivot Real.sqrt R ≠ 0 := fun h0 => hc (Or.inr h0)
  have hpos : 0 < squaredNorm (rotToQuatRaw Real.sqrt R) :=
    lt_of_lt_of_le (mul_self_pos.mpr hp) (mul_self_pivot_le_squaredNorm_raw R)
  rw [← hq]
  exact ⟨by rw [squaredNorm_canonicalize, squaredNorm_normalize _ hpos],
    canonicalize_scalar_nonneg _⟩

/-- On a valid rotation matrix `rotToQuat` has a result as soon as the pivot of
the selected branch is non-zero. -/
theorem rotToQuat_isSome_of_pivot_ne_zero (R : Matrix3 ℝ) (hR : IsRotation R)
    (hp : rotToQuatPivot Real.sqrt R ≠ 0) : ∃ q, rotToQuat Real.sqrt R = some q := by
  have hn := rotToQuatRadicand_nonneg_of_isRotation R hR
  unfold rotToQuat
  rw [if_neg (not_or.mpr ⟨not_lt.mpr hn, hp⟩)]
  exact ⟨_, rfl⟩

/-! ## Skew operator -/

/-- C9: `skew(w) * v` is the cross product `w × v` for all 3-vectors `w`, `v`,
and `skew((1,0,0)) * (0,1,0) = (0,0,1)`. -/
theorem skew_mulVec_eq_cross :
    (∀ w v : Vector3 ℝ, Matrix.mulVec (skew w) v = crossProduct w v) ∧
    Matrix.mulVec (skew (![1, 0, 0] : Vector3 ℝ)) ![0, 1, 0] = ![0, 0, 1] := by
  constructor
  · intro w v
    funext i
    fin_cases i <;>
      simp [skew, cross_apply, Matrix.mulVec, Matrix.dotProduct, Fin.sum_univ_three] <;> ring
  · funext i
    fin_cases i <;> simp [skew, Matrix.mulVec, Matrix.dotProduct, Fin.sum_univ_three]

/-- C10: `skew(w)` equals the negative of its transpose and annihilates `w`. -/
theorem skew_antisymm_and_mulVec_self (w : Vector3 ℝ) :
    skew w = -Matrix.transpose (skew w) ∧ Matrix.mulVec (skew w) w = 0 := by
  constructor
  · ext i j
    rw [Matrix.neg_apply, Matrix.transpose_apply]
    fin_cases i <;> fin_cases j <;> simp [skew]
  · funext i
    fin_cases i <;> simp [skew, Matrix.mulVec, Matrix.dotProduct, Fin.sum_univ_three] <;> ring

/-! ## Quaternion multiplication and inversion -/

/-- C2: for every unit quaternion `q`, whatever the sign of its scalar part,
`quatMul(q, quatInv(q))` is the identity quaternion `(0, 0, 0, 1)`. -/
theorem quatMul_quatInv_eq_identity (q : Vector4 ℝ) (hq : norm Real.sqrt q = 1) :
    quatMul Real.sqrt q (quatInv Real.sqrt q) = ![0, 0, 0, 1] := by
  have h := squaredNorm_eq_one_of_norm q hq
  have h4 := squaredNorm_four q
  rw [h] at h4
  by_cases hw : q 3 > 0
  · have hinv : quatInv Real.sqrt q = ![-q 0, -q 1, -q 2, q 3] := by
      unfold quatInv
      simp only [hw, if_true]
      apply normalize_of_squaredNorm_one
      rw [squaredNorm_four]
      simp
      linarith
    have hprod : Matrix.mulVec (quatMulMat q) ![-q 0, -q 1, -q 2, q 3] = ![0, 0, 0, 1] := by
      rw [quatMulMat_mulVec]
      funext i
      fin_cases i
      · simp; ring
      · simp; ring
      · simp; ring
      · simp; linarith
    unfold quatMul
    rw [hinv]
    simp only []
    rw [hprod, normalize_of_squaredNorm_one _ (by simp [squaredNorm_four])]
    simp [canonicalize]
  · have hinv : quatInv Real.sqrt q = ![q 0, q 1, q 2, -q 3] := by
      unfold quatInv
      simp only [hw, if_false]
      apply normalize_of_squaredNorm_one
      rw [squaredNorm_four]
      simp
      linarith
    have hprod : Matrix.mulVec (quatMulMat q) ![q 0, q 1, q 2, -q 3] = ![0, 0, 0, -1] := by
      rw [quatMulMat_mulVec]
      funext i
      fin_cases i
      · simp; ring
      · simp; ring
      · simp; ring
      · simp; linarith
    unfold quatMul
    rw [hinv]
    simp only []
    rw [hprod, normalize_of_squaredNorm_one _ (by simp [squaredNorm_four])]
    simp [canonicalize]

/-- Witness for C2 at the unit quaternion `(1, 0, 0, 0)`, whose scalar part is zero. -/
theorem quatMul_quatInv_eq_identity_witness :
    norm Real.sqrt (![1, 0, 0, 0] : Vector4 ℝ) = 1 ∧
    quatMul Real.sqrt (![1, 0, 0, 0] : Vector4 ℝ) (quatInv Real.sqrt ![1, 0, 0, 0]) =
      ![0, 0, 0, 1] :=
  ⟨by simp [norm, squaredNorm_four],
   quatMul_quatInv_eq_identity ![1, 0, 0, 0] (by simp [norm, squaredNorm_four])⟩

/-- C5: for non-zero `q1`, `q2` the product `M(q1) * q2` is non-zero and
`quatMul(q1, q2)` has norm 1; for non-zero `q1`, `quatInv(q1)` has norm 1. -/
theorem quatMul_quatInv_norm_eq_one (q1 q2 : Vector4 ℝ) (h1 : q1 ≠ 0) (h2 : q2 ≠ 0) :
    Matrix.mulVec (quatMulMat q1) q2 ≠ 0 ∧
    norm Real.sqrt (quatMul Real.sqrt q1 q2) = 1 ∧
    norm Real.sqrt (quatInv Real.sqrt q1) = 1 := by
  have p1 := squaredNorm_pos_of_ne_zero q1 h1
  have p2 := squaredNorm_pos_of_ne_zero q2 h2
  have pp : 0 < squaredNorm (Matrix.mulVec (quatMulMat q1) q2) := by
    rw [squaredNorm_quatMulMat_mulVec]
    exact mul_pos p1 p2
  refine ⟨?_, ?_, ?_⟩
  · intro h0
    rw [h0] at pp
    simp [squaredNorm_four] at pp
  · unfold norm quatMul
    simp only []
    rw [squaredNorm_canonicalize, squaredNorm_normalize _ pp, Real.sqrt_one]
  · unfold norm quatInv
    simp only []
    rw [squaredNorm_normalize, Real.sqrt_one]
    have e := squaredNorm_four q1
    split_ifs
    · rw [squaredNorm_four]
      simp
      linarith
    · rw [squaredNorm_four]
      simp
      linarith

/-- Witness for C5 at `q1 = (0, 0, 0, 2)` and `q2 = (3, 0, 0, 0)`, neither of unit norm. -/
theorem quatMul_quatInv_norm_eq_one_witness :
    Matrix.mulVec (quatMulMat (![0, 0, 0, 2] : Vector4 ℝ)) ![3, 0, 0, 0] ≠ 0 ∧
    norm Real.sqrt (quatMul Real.sqrt (![0, 0, 0, 2] : Vector4 ℝ) ![3, 0, 0, 0]) = 1 ∧
    norm Real.sqrt (quatInv Real.sqrt (![0, 0, 0, 2] : Vector4 ℝ)) = 1 :=
  quatMul_quatInv_norm_eq_one ![0, 0, 0, 2] ![3, 0, 0, 0]
    (fun h => by have := congrFun h 3; simp at this)
    (fun h => by have := congrFun h 0; simp at this)

/-- C4, as stated, fails: with `a = b = (1,0,0,0)` and `c = (0,1,0,0)`, all of
unit norm, `quatMul(quatMul(a,b),c) = (0,1,0,0)` while
`quatMul(a,quatMul(b,c)) = (0,-1,0,0)`. -/
theorem quatMul_not_assoc :
    norm Real.sqrt (![1, 0, 0, 0] : Vector4 ℝ) = 1 ∧
    norm Real.sqrt (![0, 1, 0, 0] : Vector4 ℝ) = 1 ∧
    quatMul Real.sqrt (quatMul Real.sqrt (![1, 0, 0, 0] : Vector4 ℝ) ![1, 0, 0, 0])
        ![0, 1, 0, 0] = ![0, 1, 0, 0] ∧
    quatMul Real.sqrt (![1, 0, 0, 0] : Vector4 ℝ)
        (quatMul Real.sqrt ![1, 0, 0, 0] ![0, 1, 0, 0]) = ![0, -1, 0, 0] ∧
    quatMul Real.sqrt (quatMul Real.sqrt (![1, 0, 0, 0] : Vector4 ℝ) ![1, 0, 0, 0])
        ![0, 1, 0, 0] ≠
      quatMul Real.sqrt (![1, 0, 0, 0] : Vector4 ℝ)
        (quatMul Real.sqrt ![1, 0, 0, 0] ![0, 1, 0, 0]) := by
  have ha : squaredNorm (![1, 0, 0, 0] : Vector4 ℝ) = 1 := by simp [squaredNorm_four]
  have hc : squaredNorm (![0, 1, 0, 0] : Vector4 ℝ) = 1 := by simp [squaredNorm_four]
  have hab : quatMul Real.sqrt (![1, 0, 0, 0] : Vector4 ℝ) ![1, 0, 0, 0] = ![0, 0, 0, 1] := by
    rw [quatMul_eq_canonicalize _ _ ha ha, quatMulMat_mulVec]
    simp [canonicalize]
  have hbc : quatMul Real.sqrt (![1, 0, 0, 0] : Vector4 ℝ) ![0, 1, 0, 0] = ![0, 0, -1, 0] := by
    rw [quatMul_eq_canonicalize _ _ ha hc, quatMulMat_mulVec]
    simp [canonicalize]
  have hi : squaredNorm (![0, 0, 0, 1] : Vector4 ℝ) = 1 := by simp [squaredNorm_four]
  have hk : squaredNorm (![0, 0, -1, 0] : Vector4 ℝ) = 1 := by simp [squaredNorm_four]
  have hl : quatMul Real.sqrt (![0, 0, 0, 1] : Vector4 ℝ) ![0, 1, 0, 0] = ![0, 1, 0, 0] := by
    rw [quatMul_eq_canonicalize _ _ hi hc, quatMulMat_mulVec]
    simp [canonicalize]
  have hr : quatMul Real.sqrt (![1, 0, 0, 0] : Vector4 ℝ) ![0, 0, -1, 0] = ![0, -1, 0, 0] := by
    rw [quatMul_eq_canonicalize _ _ ha hk, quatMulMat_mulVec]
    simp [canonicalize]
  refine ⟨by simp [norm, squaredNorm_four], by simp [norm, squaredNorm_four], ?_, ?_, ?_⟩
  · rw [hab, hl]
  · rw [hbc, hr]
  · rw [hab, hl, hbc, hr]
    intro h
    have h1 := congrFun h 1
    norm_num at h1

/-- C4, amended: for unit quaternions `a`, `b`, `c` the two bracketings of
`quatMul` agree up to sign, and they are equal whenever the scalar part of the
left bracketing is non-zero. -/
theorem quatMul_assoc_up_to_sign (a b c : Vector4 ℝ) (ha : norm Real.sqrt a = 1)
    (hb : norm Real.sqrt b = 1) (hc : norm Real.sqrt c = 1) :
    (quatMul Real.sqrt (quatMul Real.sqrt a b) c = quatMul Real.sqrt a (quatMul Real.sqrt b c) ∨
      quatMul Real.sqrt (quatMul Real.sqrt a b) c =
        -quatMul Real.sqrt a (quatMul Real.sqrt b c)) ∧
    (quatMul Real.sqrt (quatMul Real.sqrt a b) c 3 ≠ 0 →
      quatMul Real.sqrt (quatMul Real.sqrt a b) c =
        quatMul Real.sqrt a (quatMul Real.sqrt b c)) := by
  have sa := squaredNorm_eq_one_of_norm a ha
  have sb := squaredNorm_eq_one_of_norm b hb
  have sc := squaredNorm_eq_one_of_norm c hc
  have hL : quatMul Real.sqrt (quatMul Real.sqrt a b) c =
      canonicalize (Matrix.mulVec (quatMulMat (quatMul Real.sqrt a b)) c) :=
    quatMul_eq_canonicalize _ _ (squaredNorm_quatMul a b sa sb) sc
  have hR : quatMul Real.sqrt a (quatMul Real.sqrt b c) =
      canonicalize (Matrix.mulVec (quatMulMat a) (quatMul Real.sqrt b c)) :=
    quatMul_eq_canonicalize _ _ sa (squaredNorm_quatMul b c sb sc)
  rw [hL, hR, quatMul_eq_canonicalize a b sa sb, quatMul_eq_canonicalize b c sb sc]
  generalize hT : Matrix.mulVec (quatMulMat a) (Matrix.mulVec (quatMulMat b) c) = T
  have hL2 : Matrix.mulVec (quatMulMat (canonicalize (Matrix.mulVec (quatMulMat a) b))) c = T ∨
      Matrix.mulVec (quatMulMat (canonicalize (Matrix.mulVec (quatMulMat a) b))) c = -T := by
    rcases canonicalize_eq_or (Matrix.mulVec (quatMulMat a) b) with h | h
    · left; rw [h, quatMulMat_mulVec_assoc, hT]
    · right; rw [h, quatMulMat_neg_mulVec, quatMulMat_mulVec_assoc, hT]
  have hR2 : Matrix.mulVec (quatMulMat a) (canonicalize (Matrix.mulVec (quatMulMat b) c)) = T ∨
      Matrix.mulVec (quatMulMat a) (canonicalize (Matrix.mulVec (quatMulMat b) c)) = -T := by
    rcases canonicalize_eq_or (Matrix.mulVec (quatMulMat b) c) with h | h
    · left; rw [h, hT]
    · right; rw [h, Matrix.mulVec_neg, hT]
  by_cases h0 : T 3 = 0
  · have hn : (-T) 3 = 0 := by simp [h0]
    have c1 := canonicalize_of_scalar_zero T h0
    have c2 := canonicalize_of_scalar_zero (-T) hn
    rcases hL2 with h | h <;> rcases hR2 with h' | h' <;> rw [h, h'] <;>
      simp [c1, c2, h0]
  · have c3 := canonicalize_neg_of_scalar_ne_zero T h0
    rcases hL2 with h | h <;> rcases hR2 with h' | h' <;> rw [h, h'] <;>
      simp [c3]

/-- Witness for the amended C4 at `a = b = (1,0,0,0)`, `c = (0,1,0,0)`, where
the two bracketings differ by sign. -/
theorem quatMul_assoc_up_to_sign_witness :
    (quatMul Real.sqrt (quatMul Real.sqrt (![1, 0, 0, 0] : Vector4 ℝ) ![1, 0, 0, 0])
        ![0, 1, 0, 0] =
      quatMul Real.sqrt ![1, 0, 0, 0] (quatMul Real.sqrt ![1, 0, 0, 0] ![0, 1, 0, 0]) ∨
     quatMul Real.sqrt (quatMul Real.sqrt (![1, 0, 0, 0] : Vector4 ℝ) ![1, 0, 0, 0])
        ![0, 1, 0, 0] =
      -quatMul Real.sqrt ![1, 0, 0, 0] (quatMul Real.sqrt ![1, 0, 0, 0] ![0, 1, 0, 0])) ∧
    (quatMul Real.sqrt (quatMul Real.sqrt (![1, 0, 0, 0] : Vector4 ℝ) ![1, 0, 0, 0])
        ![0, 1, 0, 0] 3 ≠ 0 →
      quatMul Real.sqrt (quatMul Real.sqrt (![1, 0, 0, 0] : Vector4 ℝ) ![1, 0, 0, 0])
        ![0, 1, 0, 0] =
      quatMul Real.sqrt ![1, 0, 0, 0] (quatMul Real.sqrt ![1, 0, 0, 0] ![0, 1, 0, 0])) :=
  quatMul_assoc_up_to_sign ![1, 0, 0, 0] ![1, 0, 0, 0] ![0, 1, 0, 0]
    (by simp [norm, squaredNorm_four]) (by simp [norm, squaredNorm_four])
    (by simp [norm, squaredNorm_four])

/-! ## Quaternion to rotation matrix -/

/-- C3: for every unit quaternion `q`, `R = quatToRot(q)` satisfies
`R * Rᵀ = I` and `det R = 1`. -/
theorem quatToRot_orthonormal (q : Vector4 ℝ) (hq : norm Real.sqrt q = 1) :
    quatToRot q * Matrix.transpose (quatToRot q) = 1 ∧ Matrix.det (quatToRot q) = 1 := by
  have h := squaredNorm_eq_one_of_norm q hq
  rw [squaredNorm_four] at h
  rw [quatToRot_eq]
  constructor
  · ext i j
    simp only [Matrix.mul_apply, Matrix.transpose_apply, Fin.sum_univ_three]
    fin_cases i <;> fin_cases j <;> simp
    · linear_combination (4 * (q 1 * q 1 + q 2 * q 2)) * h
    · linear_combination (-4 * (q 0 * q 1)) * h
    · linear_combination (-4 * (q 0 * q 2)) * h
    · linear_combination (-4 * (q 0 * q 1)) * h
    · linear_combination (4 * (q 0 * q 0 + q 2 * q 2)) * h
    · linear_combination (-4 * (q 1 * q 2)) * h
    · linear_combination (-4 * (q 0 * q 2)) * h
    · linear_combination (-4 * (q 1 * q 2)) * h
    · linear_combination (4 * (q 0 * q 0 + q 1 * q 1)) * h
  · rw [Matrix.det_fin_three]
    simp
    linear_combination (4 * (q 0 * q 0 + q 1 * q 1 + q 2 * q 2)) * h

/-- Witness for C3 at the unit quaternion `(0, 1, 0, 0)`. -/
theorem quatToRot_orthonormal_witness :
    norm Real.sqrt (![0, 1, 0, 0] : Vector4 ℝ) = 1 ∧
    quatToRot (![0, 1, 0, 0] : Vector4 ℝ) * Matrix.transpose (quatToRot ![0, 1, 0, 0]) = 1 ∧
    Matrix.det (quatToRot (![0, 1, 0, 0] : Vector4 ℝ)) = 1 :=
  ⟨by simp [norm, squaredNorm_four],
   quatToRot_orthonormal ![0, 1, 0, 0] (by simp [norm, squaredNorm_four])⟩

/-! ## Round trip quaternion → matrix → quaternion -/

/-- C1, as stated, fails at `w = 0`: `q = (-1, 0, 0, 0)` is a unit quaternion
with `w = 0 ≥ 0`, and `rotToQuat(quatToRot(q))` is `(1, 0, 0, 0)`, not `q`. -/
theorem rotToQuat_quatToRot_neg_x :
    norm Real.sqrt (![-1, 0, 0, 0] : Vector4 ℝ) = 1 ∧
    (0 : ℝ) ≤ (![-1, 0, 0, 0] : Vector4 ℝ) 3 ∧
    rotToQuat Real.sqrt (quatToRot (![-1, 0, 0, 0] : Vector4 ℝ)) = some ![1, 0, 0, 0] ∧
    rotToQuat Real.sqrt (quatToRot (![-1, 0, 0, 0] : Vector4 ℝ)) ≠ some ![-1, 0, 0, 0] := by
  have h : squaredNorm (![-1, 0, 0, 0] : Vector4 ℝ) = 1 := by simp [squaredNorm_four]
  have hb : rotToQuatBranch (quatToRot (![-1, 0, 0, 0] : Vector4 ℝ)) = Pivot.x := by
    rw [rotToQuatBranch_quatToRot _ h]
    simp
  have hv : rotToQuat Real.sqrt (quatToRot (![-1, 0, 0, 0] : Vector4 ℝ)) =
      some ![1, 0, 0, 0] := by
    rw [rotToQuat_quatToRot_eq _ h, hb]
    norm_num [pivotComponent, canonicalize]
  refine ⟨by simp [norm, squaredNorm_four], by simp, hv, ?_⟩
  rw [hv]
  intro he
  have h0 := congrFun (Option.some.inj he) 0
  norm_num at h0

/-- C1, amended: for every unit quaternion `q` whose scalar part is positive,
or is zero while one vector component is positive and strictly larger than the
absolute values of the other two, `rotToQuat(quatToRot(q)) = q`. -/
theorem rotToQuat_quatToRot_roundtrip (q : Vector4 ℝ) (hq : norm Real.sqrt q = 1)
    (hw : 0 < q 3 ∨ (q 3 = 0 ∧ ((|q 1| < q 0 ∧ |q 2| < q 0) ∨ (|q 0| < q 1 ∧ |q 2| < q 1) ∨
      (|q 0| < q 2 ∧ |q 1| < q 2)))) :
    rotToQuat Real.sqrt (quatToRot q) = some q := by
  have h := squaredNorm_eq_one_of_norm q hq
  rcases hw with hw | ⟨hw, hd⟩
  · exact (rotToQuat_quatToRot_of_scalar_pos q h hw).2
  · exact rotToQuat_quatToRot_of_scalar_zero q h hw hd

/-- Witness for the amended C1 at `q = (0, 1, 0, 0)`: scalar part zero, `y`
positive and dominant. -/
theorem rotToQuat_quatToRot_roundtrip_witness :
    norm Real.sqrt (![0, 1, 0, 0] : Vector4 ℝ) = 1 ∧
    rotToQuat Real.sqrt (quatToRot (![0, 1, 0, 0] : Vector4 ℝ)) = some ![0, 1, 0, 0] :=
  ⟨by simp [norm, squaredNorm_four],
   rotToQuat_quatToRot_roundtrip ![0, 1, 0, 0] (by simp [norm, squaredNorm_four])
    (Or.inr ⟨by simp, Or.inr (Or.inl ⟨by simp, by simp⟩)⟩)⟩

/-! ## Rotation matrix to quaternion on valid rotation matrices -/

/-- The half-turn about the axis `(1, 1, 0) / √2` is a valid rotation matrix
with trace `-1` whose two largest diagonal entries tie. -/
theorem isRotation_halfTurn :
    IsRotation (!![0, 1, 0; 1, 0, 0; 0, 0, -1] : Matrix3 ℝ) := by
  constructor
  · ext i j
    simp only [Matrix.mul_apply, Matrix.transpose_apply, Fin.sum_univ_three]
    fin_cases i <;> fin_cases j <;> simp [Matrix.vecHead, Matrix.vecTail]
  · rw [Matrix.det_fin_three]
    simp

theorem rotToQuatBranch_halfTurn :
    rotToQuatBranch (!![0, 1, 0; 1, 0, 0; 0, 0, -1] : Matrix3 ℝ) = Pivot.w := by
  unfold rotToQuatBranch
  simp [Matrix.trace_fin_three]

theorem rotToQuatPivot_halfTurn :
    rotToQuatPivot Real.sqrt (!![0, 1, 0; 1, 0, 0; 0, 0, -1] : Matrix3 ℝ) = 0 := by
  unfold rotToQuatPivot rotToQuatRadicand
  rw [rotToQuatBranch_halfTurn]
  simp [Matrix.trace_fin_three]

/-- C6 fails on the code: `R = [[0,1,0],[1,0,0],[0,0,-1]]` is a valid rotation
matrix, yet `rotToQuat(R)` divides by a zero pivot and yields no quaternion, so
no result of norm 1. -/
theorem rotToQuat_halfTurn_no_unit_result :
    IsRotation (!![0, 1, 0; 1, 0, 0; 0, 0, -1] : Matrix3 ℝ) ∧
    rotToQuat Real.sqrt (!![0, 1, 0; 1, 0, 0; 0, 0, -1] : Matrix3 ℝ) = none ∧
    ¬ ∃ q, rotToQuat Real.sqrt (!![0, 1, 0; 1, 0, 0; 0, 0, -1] : Matrix3 ℝ) = some q ∧
      norm Real.sqrt q = 1 := by
  have hn : rotToQuat Real.sqrt (!![0, 1, 0; 1, 0, 0; 0, 0, -1] : Matrix3 ℝ) = none := by
    unfold rotToQuat
    rw [if_pos (Or.inr rotToQuatPivot_halfTurn)]
  refine ⟨isRotation_halfTurn, hn, ?_⟩
  rintro ⟨q, hq, -⟩
  rw [hn] at hq
  exact Option.noConfusion hq

/-- C7 fails on the code: on the valid rotation matrix
`R = [[0,1,0],[1,0,0],[0,0,-1]]` none of the three strict tests holds, the `w`
branch is selected with radicand `(1 + T) / 4 = 0`, and the pivot `q(3)` is `0`. -/
theorem rotToQuat_halfTurn_pivot_zero :
    IsRotation (!![0, 1, 0; 1, 0, 0; 0, 0, -1] : Matrix3 ℝ) ∧
    rotToQuatBranch (!![0, 1, 0; 1, 0, 0; 0, 0, -1] : Matrix3 ℝ) = Pivot.w ∧
    rotToQuatRadicand (!![0, 1, 0; 1, 0, 0; 0, 0, -1] : Matrix3 ℝ) = 0 ∧
    rotToQuatPivot Real.sqrt (!![0, 1, 0; 1, 0, 0; 0, 0, -1] : Matrix3 ℝ) = 0 := by
  refine ⟨isRotation_halfTurn, rotToQuatBranch_halfTurn, ?_, rotToQuatPivot_halfTurn⟩
  unfold rotToQuatRadicand
  rw [rotToQuatBranch_halfTurn]
  simp [Matrix.trace_fin_three]

/-- Sign canonicalisation where a result exists: the scalar component is
non-negative for `quatMul(q1, q2)` with non-zero `q1`, `q2`, for `quatInv(q1)`
with non-zero `q1`, and for every result that `rotToQuat(R)` has on a valid
rotation matrix `R`; such a result exists whenever the pivot of the selected
branch is non-zero. -/
theorem scalar_nonneg_of_result (q1 q2 : Vector4 ℝ) (R : Matrix3 ℝ) (h1 : q1 ≠ 0)
    (h2 : q2 ≠ 0) (hR : IsRotation R) :
    0 ≤ quatMul Real.sqrt q1 q2 3 ∧
    0 ≤ quatInv Real.sqrt q1 3 ∧
    (∀ q, rotToQuat Real.sqrt R = some q → 0 ≤ q 3) ∧
    (rotToQuatPivot Real.sqrt R ≠ 0 → ∃ q, rotToQuat Real.sqrt R = some q) := by
  refine ⟨?_, ?_, ?_, ?_⟩
  · have pp : 0 < squaredNorm (Matrix.mulVec (quatMulMat q1) q2) := by
      rw [squaredNorm_quatMulMat_mulVec]
      exact mul_pos (squaredNorm_pos_of_ne_zero q1 h1) (squaredNorm_pos_of_ne_zero q2 h2)
    unfold quatMul normalize
    simp only []
    rw [if_pos pp]
    exact canonicalize_scalar_nonneg _
  · have p1 := squaredNorm_pos_of_ne_zero q1 h1
    rw [squaredNorm_four] at p1
    unfold quatInv normalize
    by_cases hw : q1 3 > 0
    · have hz : 0 < squaredNorm (![-q1 0, -q1 1, -q1 2, q1 3] : Vector4 ℝ) := by
        rw [squaredNorm_four]
        simp
        linarith
      rw [if_pos hw, if_pos hz]
      exact div_nonneg (by simpa using hw.le) (Real.sqrt_nonneg _)
    · have hz : 0 < squaredNorm (![q1 0, q1 1, q1 2, -q1 3] : Vector4 ℝ) := by
        rw [squaredNorm_four]
        simp
        linarith
      rw [if_neg hw, if_pos hz]
      exact div_nonneg (by simpa using not_lt.mp hw) (Real.sqrt_nonneg _)
  · intro q hq
    exact (rotToQuat_some_spec R q hq).2
  · exact rotToQuat_isSome_of_pivot_ne_zero R hR

set_option maxRecDepth 100000 in
theorem CHI_THRESHOLD_length_eq : CHI_THRESHOLD.length = 500 := by
  rfl

set_option maxRecDepth 100000 in
set_option maxHeartbeats 4000000 in
theorem CHI_THRESHOLD_chain : List.Chain' (fun a b : ℚ => a < b) CHI_THRESHOLD := by
  unfold CHI_THRESHOLD
  simp only [List.chain'_cons, List.chain'_singleton, and_true]
  norm_num

/-- C11: the table is strictly increasing in its index: for every `i < 499`
the entries at `i` and `i + 1` exist and the first is smaller than the second. -/
theorem CHI_THRESHOLD_strictly_increasing (i : ℕ) (h : i < 499) :
    ∃ a b : ℚ, CHI_THRESHOLD[i]? = some a ∧ CHI_THRESHOLD[i + 1]? = some b ∧ a < b := by
  have hl := CHI_THRESHOLD_length_eq
  have h1 : i < CHI_THRESHOLD.length := by omega
  have h2 : i + 1 < CHI_THRESHOLD.length := by omega
  refine ⟨CHI_THRESHOLD[i], CHI_THRESHOLD[i + 1], List.getElem?_eq_getElem h1,
    List.getElem?_eq_getElem h2, ?_⟩
  exact (List.chain'_iff_get.mp CHI_THRESHOLD_chain) i (by omega)

/-- Witness for C11 at the last pair of the table, `i = 498`. -/
theorem CHI_THRESHOLD_strictly_increasing_witness :
    ∃ a b : ℚ, CHI_THRESHOLD[498]? = some a ∧ CHI_THRESHOLD[498 + 1]? = some b ∧ a < b :=
  CHI_THRESHOLD_strictly_increasing 498 (by decide)

theorem CHI_THRESHOLD_pos : ∀ x ∈ CHI_THRESHOLD, (0 : ℚ) < x := by
  have hp : List.Pairwise (fun a b : ℚ => a < b) CHI_THRESHOLD :=
    List.chain'_iff_pairwise.mp CHI_THRESHOLD_chain
  unfold CHI_THRESHOLD at hp ⊢
  rw [List.pairwise_cons] at hp
  intro x hx
  rcases List.mem_cons.mp hx with hx | hx
  · rw [hx]
    norm_num
  · exact lt_trans (by norm_num) (hp.1 x hx)

/-- C12: the table has exactly 500 entries, each strictly positive, and for an
integer `dof` the access `table[dof - 1]` hits an entry exactly when
`1 ≤ dof ≤ 500`. -/
theorem CHI_THRESHOLD_size_and_lookup_domain :
    CHI_THRESHOLD.length = 500 ∧
    (∀ x ∈ CHI_THRESHOLD, (0 : ℚ) < x) ∧
    ∀ dof : ℤ, (∃ k : ℕ, (k : ℤ) = dof - 1 ∧ ∃ v : ℚ, CHI_THRESHOLD[k]? = some v) ↔
      (1 ≤ dof ∧ dof ≤ 500) := by
  have hl := CHI_THRESHOLD_length_eq
  refine ⟨hl, CHI_THRESHOLD_pos, ?_⟩
  intro dof
  constructor
  · rintro ⟨k, hk, v, hv⟩
    obtain ⟨hlt, -⟩ := List.getElem?_eq_some.mp hv
    omega
  · rintro ⟨h1, h2⟩
    have hk : (dof - 1).toNat < CHI_THRESHOLD.length := by omega
    exact ⟨(dof - 1).toNat, by omega, CHI_THRESHOLD[(dof - 1).toNat],
      List.getElem?_eq_getElem hk⟩

set_option maxRecDepth 100000 in
/-- C16: the entry at index 0 (DOF 1) is within `1e-6` of `3.841459` and the
entry at index 1 (DOF 2) is within `1e-6` of `5.991465`. -/
theorem CHI_THRESHOLD_anchor_values :
    ∃ a b : ℚ, CHI_THRESHOLD[0]? = some a ∧ CHI_THRESHOLD[1]? = some b ∧
      |a - 3.841459| < 1e-6 ∧ |b - 5.991465| < 1e-6 := by
  refine ⟨3.841459, 5.991465, rfl, rfl, ?_, ?_⟩
  · norm_num
  · norm_num

/-! ## Inversion by branches -/

theorem quatInv_eq_div_of_scalar_pos (q : Vector4 ℝ) (hq : q ≠ 0) (hw : q 3 > 0) :
    quatInv Real.sqrt q =
      fun i => (![-q 0, -q 1, -q 2, q 3] : Vector4 ℝ) i / norm Real.sqrt q := by
  have hs : squaredNorm (![-q 0, -q 1, -q 2, q 3] : Vector4 ℝ) = squaredNorm q := by
    simp [squaredNorm_four]
  have hp := squaredNorm_pos_of_ne_zero q hq
  unfold quatInv normalize norm
  simp only []
  rw [if_pos hw, hs, if_pos hp]

theorem quatInv_eq_div_of_scalar_nonpos (q : Vector4 ℝ) (hq : q ≠ 0) (hw : q 3 ≤ 0) :
    quatInv Real.sqrt q =
      fun i => (![q 0, q 1, q 2, -q 3] : Vector4 ℝ) i / norm Real.sqrt q := by
  have hs : squaredNorm (![q 0, q 1, q 2, -q 3] : Vector4 ℝ) = squaredNorm q := by
    simp [squaredNorm_four]
  have hp := squaredNorm_pos_of_ne_zero q hq
  unfold quatInv normalize norm
  simp only []
  rw [if_neg (not_lt.mpr hw), hs, if_pos hp]

theorem quatInv_of_unit_scalar_pos (q : Vector4 ℝ) (hq : norm Real.sqrt q = 1)
    (hw : q 3 > 0) : quatInv Real.sqrt q = ![-q 0, -q 1, -q 2, q 3] := by
  have hne : q ≠ 0 := by
    intro h0
    rw [h0] at hw
    simp at hw
  rw [quatInv_eq_div_of_scalar_pos q hne hw, hq]
  funext i
  simp

theorem quatInv_of_unit_scalar_nonpos (q : Vector4 ℝ) (hq : norm Real.sqrt q = 1)
    (hw : q 3 ≤ 0) : quatInv Real.sqrt q = ![q 0, q 1, q 2, -q 3] := by
  have hne : q ≠ 0 := by
    intro h0
    have h1 := squaredNorm_eq_one_of_norm q hq
    rw [h0] at h1
    simp [squaredNorm_four] at h1
  rw [quatInv_eq_div_of_scalar_nonpos q hne hw, hq]
  funext i
  simp

/-- C13: for a non-zero quaternion `q`, `quatInv(q)` is `(-x,-y,-z,w)` divided
by the norm of `q` when `w > 0` and `(x,y,z,-w)` divided by the norm of `q`
when `w ≤ 0`; for a unit `q` these are `(-x,-y,-z,w)` and `(x,y,z,-w)`. -/
theorem quatInv_by_branches (q : Vector4 ℝ) (hq : q ≠ 0) :
    (q 3 > 0 → quatInv Real.sqrt q =
      fun i => (![-q 0, -q 1, -q 2, q 3] : Vector4 ℝ) i / norm Real.sqrt q) ∧
    (q 3 ≤ 0 → quatInv Real.sqrt q =
      fun i => (![q 0, q 1, q 2, -q 3] : Vector4 ℝ) i / norm Real.sqrt q) ∧
    (norm Real.sqrt q = 1 →
      (q 3 > 0 → quatInv Real.sqrt q = ![-q 0, -q 1, -q 2, q 3]) ∧
      (q 3 ≤ 0 → quatInv Real.sqrt q = ![q 0, q 1, q 2, -q 3])) := by
  refine ⟨quatInv_eq_div_of_scalar_pos q hq, quatInv_eq_div_of_scalar_nonpos q hq, ?_⟩
  intro hu
  exact ⟨quatInv_of_unit_scalar_pos q hu, quatInv_of_unit_scalar_nonpos q hu⟩

/-- Witness for C13 at the non-unit quaternion `(0, 0, 3, -4)` of norm 5,
which takes the `w ≤ 0` branch. -/
theorem quatInv_by_branches_witness :
    (![0, 0, 3, -4] : Vector4 ℝ) ≠ 0 ∧
    quatInv Real.sqrt (![0, 0, 3, -4] : Vector4 ℝ) =
      fun i => (![0, 0, 3, 4] : Vector4 ℝ) i / norm Real.sqrt (![0, 0, 3, -4] : Vector4 ℝ) := by
  have hne : (![0, 0, 3, -4] : Vector4 ℝ) ≠ 0 := fun h => by
    have := congrFun h 2
    simp at this
  refine ⟨hne, ?_⟩
  rw [(quatInv_by_branches ![0, 0, 3, -4] hne).2.1 (by norm_num)]
  funext i
  fin_cases i <;> simp

/-! ## Rotation matrices of negated, composed and inverted quaternions -/

theorem quatToRot_neg (q : Vector4 ℝ) : quatToRot (-q) = quatToRot q := by
  rw [quatToRot_eq, quatToRot_eq]
  ext i j
  fin_cases i <;> fin_cases j <;> simp

/-- For a unit quaternion the matrix of `quatToRot` in homogeneous form. -/
theorem quatToRot_eq_of_unit (q : Vector4 ℝ) (h : squaredNorm q = 1) :
    quatToRot q =
      !![q 3 * q 3 + q 0 * q 0 - q 1 * q 1 - q 2 * q 2, 2 * (q 0 * q 1 + q 2 * q 3),
           2 * (q 0 * q 2 - q 1 * q 3);
         2 * (q 0 * q 1 - q 2 * q 3), q 3 * q 3 - q 0 * q 0 + q 1 * q 1 - q 2 * q 2,
           2 * (q 1 * q 2 + q 0 * q 3);
         2 * (q 0 * q 2 + q 1 * q 3), 2 * (q 1 * q 2 - q 0 * q 3),
           q 3 * q 3 - q 0 * q 0 - q 1 * q 1 + q 2 * q 2] := by
  rw [squaredNorm_four] at h
  rw [quatToRot_eq]
  ext i j
  fin_cases i <;> fin_cases j <;> simp <;> linear_combination (-1 : ℝ) * h

theorem quatToRot_mulVec (q1 q2 : Vector4 ℝ) (h1 : squaredNorm q1 = 1)
    (h2 : squaredNorm q2 = 1) :
    quatToRot (Matrix.mulVec (quatMulMat q1) q2) = quatToRot q1 * quatToRot q2 := by
  have hp : squaredNorm (Matrix.mulVec (quatMulMat q1) q2) = 1 := by
    rw [squaredNorm_quatMulMat_mulVec, h1, h2, mul_one]
  rw [quatToRot_eq_of_unit _ hp, quatToRot_eq_of_unit q1 h1, quatToRot_eq_of_unit q2 h2,
    quatMulMat_mulVec]
  ext i j
  simp only [Matrix.mul_apply, Fin.sum_univ_three]
  fin_cases i <;> fin_cases j <;> simp <;> ring

/-- C14: a quaternion and its negation give the same rotation matrix. -/
theorem quatToRot_negation_same_rotation (q : Vector4 ℝ) :
    quatToRot (-q) = quatToRot q := by
  ext i j
  fin_cases i <;> fin_cases j <;>
    simp [quatToRot, skew, Matrix.mul_apply, Fin.sum_univ_three]

/-- C15: `quatToRot((0, 0, 0, 1))` is the 3×3 identity matrix. -/
theorem quatToRot_identity : quatToRot (![0, 0, 0, 1] : Vector4 ℝ) = 1 := by
  rw [quatToRot_eq]
  ext i j
  fin_cases i <;> fin_cases j <;> simp [Matrix.vecHead, Matrix.vecTail]

/-- C17: for unit quaternions `q1`, `q2`,
`quatToRot(quatMul(q1, q2)) = quatToRot(q1) * quatToRot(q2)`, whether or not
`quatMul` negated its result. -/
theorem quatToRot_quatMul (q1 q2 : Vector4 ℝ) (h1 : norm Real.sqrt q1 = 1)
    (h2 : norm Real.sqrt q2 = 1) :
    quatToRot (quatMul Real.sqrt q1 q2) = quatToRot q1 * quatToRot q2 := by
  have s1 := squaredNorm_eq_one_of_norm q1 h1
  have s2 := squaredNorm_eq_one_of_norm q2 h2
  rw [quatMul_eq_canonicalize q1 q2 s1 s2]
  rcases canonicalize_eq_or (Matrix.mulVec (quatMulMat q1) q2) with h | h
  · rw [h, quatToRot_mulVec q1 q2 s1 s2]
  · rw [h, quatToRot_neg, quatToRot_mulVec q1 q2 s1 s2]

/-- Witness for C17 at `q1 = q2 = (1, 0, 0, 0)`, where the product `(0,0,0,-1)`
is negated by `quatMul`. -/
theorem quatToRot_quatMul_witness :
    norm Real.sqrt (![1, 0, 0, 0] : Vector4 ℝ) = 1 ∧
    quatToRot (quatMul Real.sqrt (![1, 0, 0, 0] : Vector4 ℝ) ![1, 0, 0, 0]) =
      quatToRot (![1, 0, 0, 0] : Vector4 ℝ) * quatToRot ![1, 0, 0, 0] :=
  ⟨by simp [norm, squaredNorm_four],
   quatToRot_quatMul ![1, 0, 0, 0] ![1, 0, 0, 0] (by simp [norm, squaredNorm_four])
    (by simp [norm, squaredNorm_four])⟩

/-- C18: for every unit quaternion `q`, in both branches of `quatInv`,
`quatToRot(quatInv(q))` is the transpose of `quatToRot(q)`. -/
theorem quatToRot_quatInv (q : Vector4 ℝ) (hq : norm Real.sqrt q = 1) :
    (q 3 > 0 → quatToRot (quatInv Real.sqrt q) = Matrix.transpose (quatToRot q)) ∧
    (q 3 ≤ 0 → quatToRot (quatInv Real.sqrt q) = Matrix.transpose (quatToRot q)) := by
  constructor
  · intro hw
    rw [quatInv_of_unit_scalar_pos q hq hw, quatToRot_eq, quatToRot_eq]
    ext i j
    rw [Matrix.transpose_apply]
    fin_cases i <;> fin_cases j <;> simp <;> ring
  · intro hw
    rw [quatInv_of_unit_scalar_nonpos q hq hw, quatToRot_eq, quatToRot_eq]
    ext i j
    rw [Matrix.transpose_apply]
    fin_cases i <;> fin_cases j <;> simp <;> ring

/-- Witness for C18 at the unit quaternion `(0, 0, 1, 0)`, which takes the
`w ≤ 0` branch of `quatInv`. -/
theorem quatToRot_quatInv_witness :
    norm Real.sqrt (![0, 0, 1, 0] : Vector4 ℝ) = 1 ∧
    quatToRot (quatInv Real.sqrt (![0, 0, 1, 0] : Vector4 ℝ)) =
      Matrix.transpose (quatToRot (![0, 0, 1, 0] : Vector4 ℝ)) :=
  ⟨by simp [norm, squaredNorm_four],
   (quatToRot_quatInv ![0, 0, 1, 0] (by simp [norm, squaredNorm_four])).2 (by simp)⟩

/-! ## Conditioning of the strict branches and round trip for `w > 0` -/

/-- C19: for any 3×3 matrix, when `rotToQuat` selects the `x`, `y` or `z`
branch the radicand exceeds `1/4`, hence is positive, and the pivot exceeds `1/2`. -/
theorem strict_branch_well_conditioned (R : Matrix3 ℝ) (hb : rotToQuatBranch R ≠ Pivot.w) :
    1 / 4 < rotToQuatRadicand R ∧ 0 < rotToQuatRadicand R ∧
    1 / 2 < rotToQuatPivot Real.sqrt R := by
  have h := one_fourth_lt_rotToQuatRadicand R hb
  refine ⟨h, by linarith, ?_⟩
  unfold rotToQuatPivot
  rw [Real.lt_sqrt (by norm_num)]
  linarith

/-- Witness for C19 at `diag(1, -1, -1)`, which selects the `x` branch. -/
theorem strict_branch_well_conditioned_witness :
    rotToQuatBranch (!![1, 0, 0; 0, -1, 0; 0, 0, -1] : Matrix3 ℝ) = Pivot.x ∧
    1 / 4 < rotToQuatRadicand (!![1, 0, 0; 0, -1, 0; 0, 0, -1] : Matrix3 ℝ) ∧
    0 < rotToQuatRadicand (!![1, 0, 0; 0, -1, 0; 0, 0, -1] : Matrix3 ℝ) ∧
    1 / 2 < rotToQuatPivot Real.sqrt (!![1, 0, 0; 0, -1, 0; 0, 0, -1] : Matrix3 ℝ) := by
  have hx : rotToQuatBranch (!![1, 0, 0; 0, -1, 0; 0, 0, -1] : Matrix3 ℝ) = Pivot.x := by
    unfold rotToQuatBranch
    norm_num [Matrix.trace_fin_three]
  refine ⟨hx, strict_branch_well_conditioned _ ?_⟩
  rw [hx]
  decide

/-- C20: for every unit quaternion `q` with `w > 0`, the pivot that `rotToQuat`
computes on `quatToRot(q)` is non-zero and `rotToQuat(quatToRot(q)) = q`. -/
theorem rotToQuat_quatToRot_scalar_pos (q : Vector4 ℝ) (hq : norm Real.sqrt q = 1)
    (hw : 0 < q 3) :
    rotToQuatPivot Real.sqrt (quatToRot q) ≠ 0 ∧
    rotToQuat Real.sqrt (quatToRot q) = some q := by
  have h := squaredNorm_eq_one_of_norm q hq
  obtain ⟨hc, hr⟩ := rotToQuat_quatToRot_of_scalar_pos q h hw
  refine ⟨?_, hr⟩
  rw [rotToQuatPivot_quatToRot q h]
  exact abs_ne_zero.mpr hc

/-- Witness for C20 at `q = (1/2, 1/2, 1/2, 1/2)`, where all four candidates
tie and the `w` branch is taken. -/
theorem rotToQuat_quatToRot_scalar_pos_witness :
    norm Real.sqrt (![1 / 2, 1 / 2, 1 / 2, 1 / 2] : Vector4 ℝ) = 1 ∧
    rotToQuatPivot Real.sqrt (quatToRot (![1 / 2, 1 / 2, 1 / 2, 1 / 2] : Vector4 ℝ)) ≠ 0 ∧
    rotToQuat Real.sqrt (quatToRot (![1 / 2, 1 / 2, 1 / 2, 1 / 2] : Vector4 ℝ)) =
      some ![1 / 2, 1 / 2, 1 / 2, 1 / 2] := by
  have hn : norm Real.sqrt (![1 / 2, 1 / 2, 1 / 2, 1 / 2] : Vector4 ℝ) = 1 := by
    unfold norm
    rw [squaredNorm_four]
    norm_num
  exact ⟨hn, rotToQuat_quatToRot_scalar_pos _ hn (by norm_num)⟩

end rcvio
